import Mathlib

/-!
Shallow embedding of the multi-armed-bandit simulator
(`src/bandit.py`, `src/simulation.py`).

Real-valued samples and parameters are modelled by rationals where the
source only adds, divides and compares them; the Gaussian estimators that
genuinely need `sqrt`/`exp` are modelled over the reals.  Python exceptions
are modelled by `Except`/`Option`; a strategy step that can raise after
committing a mutation returns a `StepOutcome` that records the state left
behind by the escaped exception.  Sources of randomness (the uniform draw
of `gen_random_uniform`, the index drawn by `random.choice`, the value
sampled by `generate`) are passed in explicitly as oracle inputs.
-/

namespace MAB

/-- State of a `Bandit` (the `BernoulliBandit` variant): the true
parameter `self.parameter` and the observed results `self._results`. -/
structure Bandit where
  parameter : ℚ
  results : List ℚ
deriving DecidableEq

/-- Embeds `BernoulliBandit.parameter_hat`: `inf` (modelled as the top
element of `WithTop`) when `self._results` is empty, otherwise
`sum(self._results) / len(self._results)`. -/
def parameter_hat (b : Bandit) : WithTop ℚ :=
  match b.results with
  | [] => ⊤
  | _ => ((b.results.sum / (b.results.length : ℚ) : ℚ) : WithTop ℚ)

/-- Embeds `BernoulliBandit.__init__`: raises `ValueError` when
`parameter < 0 or parameter > 1`, otherwise stores the parameter with an
empty result list. -/
def bernoulli_init (p : ℚ) : Except String Bandit :=
  if p < 0 ∨ p > 1 then
    .error "ValueError: parameter must be 0 <= parameter <= 1"
  else
    .ok ⟨p, []⟩

/-- State of a `BanditCollection`: the ordered bandits and the `results`
list (the pull history, filled by the strategies). -/
structure BanditCollection where
  bandits : List Bandit
  results : List ℚ
deriving DecidableEq

/-- Embeds `BanditCollection.simulation_num`:
`sum([len(bandit) for bandit in self.bandits])`. -/
def simulation_num (c : BanditCollection) : ℕ :=
  (c.bandits.map fun b => b.results.length).sum

/-- Embeds the loop of Python `max` once a first candidate is fixed: the
candidate is replaced exactly when the next item compares greater, and
`Bandit.@[total_ordering]` comparisons reduce to comparing
`parameter_hat` values. -/
def pyMaxFrom (m : Bandit) : List Bandit → Bandit
  | [] => m
  | b :: bs => pyMaxFrom (if parameter_hat m < parameter_hat b then b else m) bs

/-- Embeds `max(self.bandits)`: `ValueError` (here `none`) on an empty
list, otherwise the fold of `pyMaxFrom` started at the first element. -/
def pyMax : List Bandit → Option Bandit
  | [] => none
  | b :: bs => some (pyMaxFrom b bs)

/-- Embeds `list.index(value)`: the first position whose element
satisfies the comparison, `ValueError` (here `none`) when there is none. -/
def findIndex (p : Bandit → Bool) : List Bandit → Option ℕ
  | [] => none
  | b :: bs => if p b then some 0 else (findIndex p bs).map (· + 1)

/-- Embeds the index computed by `BanditCollection.optimal_bandit`, i.e.
`self.bandits.index(max(self.bandits))`.  `list.index` compares with
`Bandit.__eq__`, which compares `parameter_hat` values. -/
def optimal_index (c : BanditCollection) : Option ℕ :=
  (pyMax c.bandits).bind fun m =>
    findIndex (fun b => decide (parameter_hat b = parameter_hat m)) c.bandits

/-- Embeds `BanditCollection.optimal_bandit`:
`self.bandits[self.bandits.index(max(self.bandits))]`. -/
def optimal_bandit (c : BanditCollection) : Option Bandit :=
  (optimal_index c).bind fun i => c.bandits.get? i

/-- Embeds `random.choice(self.bandits)` with the drawn randomness made
explicit: `IndexError` (here `none`) on an empty list, otherwise an index
determined by the oracle value `k`. -/
def randomIndex (c : BanditCollection) (k : ℕ) : Option ℕ :=
  if c.bandits.length = 0 then none else some (k % c.bandits.length)

/-- Oracle inputs consumed by one strategy step: the value returned by
`gen_random_uniform`, the index drawn by `random.choice`, and the value
sampled by `bandit.generate`. -/
structure StepInput where
  u : ℚ
  choice : ℕ
  draw : ℚ
deriving DecidableEq

/-- Appends a sampled value to the result list of the bandit at position
`i`, the functional counterpart of calling `generate` on the object
`self.bandits[i]`. -/
def appendAt (i : ℕ) (v : ℚ) : List Bandit → List Bandit
  | [] => []
  | b :: bs =>
    match i with
    | 0 => { b with results := b.results ++ [v] } :: bs
    | i + 1 => b :: appendAt i v bs

/-- Embeds `bandit.generate()` on the bandit at index `i` of the
collection: the drawn value is appended to that bandit and the rest of
the collection is unchanged. -/
def pullArm (c : BanditCollection) (i : ℕ) (v : ℚ) : BanditCollection :=
  { c with bandits := appendAt i v c.bandits }

/-- Outcome of one `simulate_one` call.  `err` carries the state left
behind when an exception escapes after some mutations were committed. -/
inductive StepOutcome where
  | ok (c : BanditCollection)
  | err (c : BanditCollection)
deriving DecidableEq

/-- Embeds `EpsilonGreedyStrategy._bandit_strategy`: a random bandit when
`random_value <= self.epsilon`, otherwise the optimal bandit.  The result
is the index of the chosen bandit object. -/
def greedy_bandit_strategy (eps : ℚ) (c : BanditCollection) (inp : StepInput) : Option ℕ :=
  if inp.u ≤ eps then randomIndex c inp.choice
  else optimal_index c

/-- Embeds `EpsilonGreedyStrategy.simulate_one`.  After
`result = bandit.generate()` commits the pull, the statement
`self.bandit_collection.results.append(\x7b"id": bandit.id, "value": result\x7d)`
evaluates `bandit.id`; no class in `src/bandit.py` defines an `id`
attribute, so an `AttributeError` escapes before the pull history is
extended. -/
def greedy_simulate_one (eps : ℚ) (c : BanditCollection) (inp : StepInput) : StepOutcome :=
  match greedy_bandit_strategy eps c inp with
  | none => .err c
  | some i => .err (pullArm c i inp.draw)

/-- Embeds `EpsilonDecreasingStrategy.simulate_one`.  It invokes
`self._bandit_strategy(random_value=..., bandit_collection=...)`, but
`_bandit_strategy` only accepts `random_value`, so a `TypeError` is
raised before any state is touched. -/
def decreasing_simulate_one (c : BanditCollection) (_inp : StepInput) : StepOutcome :=
  .err c

/-- Embeds `EpsilonFirstStrategy.exploitation_phase`:
`self.epsilon * self.num_simulations <= self.simulation_num`. -/
def exploitation_phase (eps : ℚ) (num_simulations : ℕ) (c : BanditCollection) : Bool :=
  decide (eps * (num_simulations : ℚ) ≤ (simulation_num c : ℚ))

/-- Embeds `EpsilonFirstStrategy.simulate_one`: a random bandit while the
exploitation phase has not started, the optimal bandit afterwards; the
drawn value is appended both to the chosen bandit and to the collection
result list. -/
def first_simulate_one (eps : ℚ) (N : ℕ) (c : BanditCollection) (inp : StepInput) : StepOutcome :=
  match (if !(exploitation_phase eps N c) then randomIndex c inp.choice
         else optimal_index c) with
  | none => .err c
  | some i =>
    let c1 := pullArm c i inp.draw
    .ok { c1 with results := c1.results ++ [inp.draw] }

/-- Embeds `EpsilonDecreasingStrategy.epsilon_curr`:
`math.exp(self.epsilon - (self.decay_rate * self.simulation_num))`. -/
noncomputable def epsilon_curr (epsilon decay_rate : ℝ) (sim_num : ℕ) : ℝ :=
  Real.exp (epsilon - decay_rate * (sim_num : ℝ))

/-- Embeds the guard of `SemiUniformStrategy.__init__`: the chained
comparison `0 > epsilon < 1` evaluates in Python as
`0 > epsilon and epsilon < 1`, and `ValueError` is raised exactly when it
is true. -/
def semi_uniform_epsilon_raises (epsilon : ℚ) : Bool :=
  decide (0 > epsilon) && decide (epsilon < 1)

/-- Embeds the guard of `EpsilonDecreasingStrategy.__init__`:
`if 0 < self.decay_rate < 1: raise ValueError(...)`, which raises exactly
when the decay rate lies strictly between 0 and 1.  (The attribute
`self.decay_rate` is moreover read before it is ever assigned, so in the
source every construction fails; the guard condition alone is modelled
here.) -/
def decreasing_decay_raises (decay_rate : ℚ) : Bool :=
  decide (0 < decay_rate) && decide (decay_rate < 1)

/-- Runs `simulate_one` once per remaining oracle input, stopping when an
exception escapes a step, as a sequence of Python statements would. -/
def runSteps (step : BanditCollection → StepInput → StepOutcome) :
    List StepInput → BanditCollection → StepOutcome
  | [], c => .ok c
  | inp :: rest, c =>
    match step c inp with
    | .ok c1 => runSteps step rest c1
    | .err c1 => .err c1

/-- Embeds `SemiUniformStrategy.simulate(num_sims)`: exactly one
`simulate_one` call per oracle input, regardless of budget or progress. -/
def simulate (step : BanditCollection → StepInput → StepOutcome)
    (inputs : List StepInput) (c : BanditCollection) : StepOutcome :=
  runSteps step inputs c

/-- Embeds `SemiUniformStrategy.full_simulation`: raises when
`self.simulation_num >= self.num_simulations`, otherwise runs
`simulate_one` once per element of
`range(self.simulation_num, self.num_simulations)`. -/
def full_simulation (step : BanditCollection → StepInput → StepOutcome)
    (num_simulations : ℕ) (inputs : List StepInput) (c : BanditCollection) : StepOutcome :=
  if num_simulations ≤ simulation_num c then .err c
  else runSteps step (inputs.take (num_simulations - simulation_num c)) c

/-- Embeds the list comprehension of
`BanditCollection.from_parameter_list`: each parameter is passed to the
`BernoulliBandit` constructor in order, and the first `ValueError`
escapes with no bandit list produced. -/
def initAll : List ℚ → Except String (List Bandit)
  | [] => .ok []
  | v :: vs =>
    match bernoulli_init v with
    | .error e => .error e
    | .ok b =>
      match initAll vs with
      | .error e => .error e
      | .ok bs => .ok (b :: bs)

/-- Embeds `BanditCollection.from_parameter_list` for the Bernoulli
distribution: builds the bandits from the parameter list and wraps them
in a collection whose `results` field takes its empty default. -/
def bernoulli_from_parameter_list (vs : List ℚ) : Except String BanditCollection :=
  match initAll vs with
  | .error e => .error e
  | .ok bs => .ok ⟨bs, []⟩

/-- State of a `GaussianBandit`: location parameter, scale parameter and
observed results. -/
structure GaussianBandit where
  parameter : ℚ
  secondary_parameter : ℚ
  results : List ℚ
deriving DecidableEq

/-- Embeds `GaussianBandit.__init__`: raises `ValueError` when the
secondary parameter is negative. -/
def gaussian_init (p s : ℚ) : Except String GaussianBandit :=
  if s < 0 then .error "ValueError: secondary_parameter must not be negative"
  else .ok ⟨p, s, []⟩

/-- Embeds the indexed loop of
`TwoParameterBanditCollection.from_parameter_list`: for each index of the
first parameter list the matching entry of the second list is read
(`IndexError` when it is missing) and both are passed to the
`GaussianBandit` constructor. -/
def gaussian_init_all : List ℚ → List ℚ → Except String (List GaussianBandit)
  | [], _ => .ok []
  | _ :: _, [] => .error "IndexError: list index out of range"
  | a :: as, b :: bs =>
    match gaussian_init a b with
    | .error e => .error e
    | .ok g =>
      match gaussian_init_all as bs with
      | .error e => .error e
      | .ok gs => .ok (g :: gs)

/-- State of a `TwoParameterBanditCollection` holding Gaussian bandits. -/
structure GaussianCollection where
  bandits : List GaussianBandit
  results : List ℚ
deriving DecidableEq

/-- Embeds `TwoParameterBanditCollection.from_parameter_list` for the
Gaussian distribution. -/
def gaussian_from_parameter_list (p1 p2 : List ℚ) : Except String GaussianCollection :=
  match gaussian_init_all p1 p2 with
  | .error e => .error e
  | .ok gs => .ok ⟨gs, []⟩

/-- Embeds `GaussianBandit.parameter_hat`: `inf` when no observation
exists, otherwise the mean of the observed results. -/
def gaussian_parameter_hat (b : GaussianBandit) : WithTop ℚ :=
  match b.results with
  | [] => ⊤
  | _ => ((b.results.sum / (b.results.length : ℚ) : ℚ) : WithTop ℚ)

/-- Embeds `GaussianBandit.secondary_parameter_hat`:
`sqrt(sum([(r - parameter_hat)**2 for r in results]) / len(results))`.
There is no emptiness guard: with no observations the division is
`0 / 0`, so the property read raises `ZeroDivisionError` (modelled as
`none`) instead of returning `inf`. -/
noncomputable def gaussian_secondary_parameter_hat (b : GaussianBandit) : Option ℝ :=
  match b.results with
  | [] => none
  | _ =>
    some (Real.sqrt
      (((b.results.map
          (fun r => ((r : ℝ) - ((b.results.sum / (b.results.length : ℚ) : ℚ) : ℝ)) ^ 2)).sum)
        / (b.results.length : ℝ)))

/-- The collection invariant of the specification:
`sum(len(arm.observedResults) for arm in arms) == len(pullHistory)`. -/
def invariant (c : BanditCollection) : Prop :=
  simulation_num c = c.results.length

theorem parameter_hat_of_empty (b : Bandit) (h : b.results = []) :
    parameter_hat b = ⊤ := by
  cases b with
  | mk p r =>
    simp only at h
    subst h
    rfl

theorem pyMaxFrom_spec (bs : List Bandit) : ∀ m : Bandit,
    (pyMaxFrom m bs = m ∨ pyMaxFrom m bs ∈ bs)
    ∧ parameter_hat m ≤ parameter_hat (pyMaxFrom m bs)
    ∧ ∀ b ∈ bs, parameter_hat b ≤ parameter_hat (pyMaxFrom m bs) := by
  induction bs with
  | nil =>
    intro m
    exact ⟨Or.inl rfl, le_refl _, by simp⟩
  | cons b bs ih =>
    intro m
    by_cases hlt : parameter_hat m < parameter_hat b
    · have hrec := ih b
      have hunf : pyMaxFrom m (b :: bs) = pyMaxFrom b bs := by
        simp [pyMaxFrom, hlt]
      refine ⟨?_, ?_, ?_⟩
      · rw [hunf]
        rcases hrec.1 with h1 | h1
        · exact Or.inr (by simp [h1])
        · exact Or.inr (List.mem_cons_of_mem _ h1)
      · rw [hunf]
        exact le_trans (le_of_lt hlt) hrec.2.1
      · intro b2 hb2
        rw [hunf]
        rcases List.mem_cons.mp hb2 with h2 | h2
        · subst h2; exact hrec.2.1
        · exact hrec.2.2 b2 h2
    · have hrec := ih m
      have hunf : pyMaxFrom m (b :: bs) = pyMaxFrom m bs := by
        simp [pyMaxFrom, hlt]
      refine ⟨?_, ?_, ?_⟩
      · rw [hunf]
        rcases hrec.1 with h1 | h1
        · exact Or.inl h1
        · exact Or.inr (List.mem_cons_of_mem _ h1)
      · rw [hunf]
        exact hrec.2.1
      · intro b2 hb2
        rw [hunf]
        rcases List.mem_cons.mp hb2 with h2 | h2
        · subst h2; exact le_trans (not_lt.mp hlt) hrec.2.1
        · exact hrec.2.2 b2 h2

theorem findIndex_spec (p : Bandit → Bool) :
    ∀ (l : List Bandit) (i : ℕ), findIndex p l = some i →
      ∃ b, l.get? i = some b ∧ p b = true ∧
        ∀ j, j < i → ∀ b2, l.get? j = some b2 → p b2 = false := by
  intro l
  induction l with
  | nil =>
    intro i h
    simp [findIndex] at h
  | cons a l ih =>
    intro i h
    by_cases hp : p a
    · have : i = 0 := by
        simp [findIndex, hp] at h
        omega
      subst this
      exact ⟨a, rfl, hp, by intro j hj; omega⟩
    · simp [findIndex, hp] at h
      obtain ⟨i0, h0, hi⟩ := h
      subst hi
      obtain ⟨b, hg, hpb, hbef⟩ := ih i0 h0
      refine ⟨b, by simpa using hg, hpb, ?_⟩
      intro j hj b2 hg2
      cases j with
      | zero =>
        simp at hg2
        subst hg2
        simpa using hp
      | succ j =>
        exact hbef j (by omega) b2 (by simpa using hg2)

theorem findIndex_total (p : Bandit → Bool) :
    ∀ l : List Bandit, (∃ b ∈ l, p b = true) → ∃ i, findIndex p l = some i := by
  intro l
  induction l with
  | nil =>
    rintro ⟨b, hb, _⟩
    simp at hb
  | cons a l ih =>
    rintro ⟨b, hb, hpb⟩
    by_cases hp : p a
    · exact ⟨0, by simp [findIndex, hp]⟩
    · rcases List.mem_cons.mp hb with h1 | h1
      · subst h1; exact absurd hpb (by simpa using hp)
      · obtain ⟨i, hi⟩ := ih ⟨b, h1, hpb⟩
        exact ⟨i + 1, by simp [findIndex, hp, hi]⟩

/-- C1: an arm with no observations reports estimate `inf`;
`optimal_bandit` returns the arm with the maximum estimate, ties resolved
by first occurrence; and whenever some arm has no observations, the
selected arm has estimate `inf`, so no arm with a finite estimate can be
chosen over it. -/
theorem C1_optimal_bandit_max_first (c : BanditCollection) (h : c.bandits ≠ []) :
    (∀ b ∈ c.bandits, b.results = [] → parameter_hat b = ⊤)
    ∧ (∃ i b, optimal_index c = some i ∧ c.bandits.get? i = some b
        ∧ optimal_bandit c = some b
        ∧ (∀ b2 ∈ c.bandits, parameter_hat b2 ≤ parameter_hat b)
        ∧ (∀ j b2, j < i → c.bandits.get? j = some b2 →
            parameter_hat b2 < parameter_hat b))
    ∧ ((∃ b0 ∈ c.bandits, b0.results = []) →
        ∀ b, optimal_bandit c = some b → parameter_hat b = ⊤) := by
  obtain ⟨hd, tl, hc⟩ : ∃ hd tl, c.bandits = hd :: tl := by
    cases hcb : c.bandits with
    | nil => exact absurd hcb h
    | cons hd tl => exact ⟨hd, tl, rfl⟩
  set m := pyMaxFrom hd tl with hm
  have hmax : pyMax c.bandits = some m := by
    rw [hc]; rfl
  have hspec := pyMaxFrom_spec tl hd
  have hmem : m ∈ c.bandits := by
    rw [hc]
    rcases hspec.1 with h1 | h1
    · rw [← hm] at h1
      rw [h1]
      exact List.mem_cons_self _ _
    · exact List.mem_cons_of_mem _ h1
  have hle : ∀ b ∈ c.bandits, parameter_hat b ≤ parameter_hat m := by
    intro b hb
    rw [hc] at hb
    rcases List.mem_cons.mp hb with h1 | h1
    · subst h1; exact hspec.2.1
    · exact hspec.2.2 b h1
  set p := fun b => decide (parameter_hat b = parameter_hat m) with hp
  obtain ⟨i, hfi⟩ := findIndex_total p c.bandits ⟨m, hmem, by simp [hp]⟩
  obtain ⟨b, hget, hpb, hbef⟩ := findIndex_spec p c.bandits i hfi
  have hbm : parameter_hat b = parameter_hat m := of_decide_eq_true hpb
  have hoi : optimal_index c = some i := by
    unfold optimal_index
    rw [hmax]
    exact hfi
  have hob : optimal_bandit c = some b := by
    unfold optimal_bandit
    rw [hoi]
    exact hget
  refine ⟨fun b2 _ hb2 => parameter_hat_of_empty b2 hb2, ⟨i, b, hoi, hget, hob, ?_, ?_⟩, ?_⟩
  · intro b2 hb2
    rw [hbm]
    exact hle b2 hb2
  · intro j b2 hj hg2
    have hne : parameter_hat b2 ≠ parameter_hat m :=
      of_decide_eq_false (hbef j hj b2 hg2)
    have hmem2 : b2 ∈ c.bandits := by
      rcases List.get?_eq_some.mp hg2 with ⟨hlt, hgg⟩
      rw [← hgg]
      exact List.get_mem _ _ _
    rw [hbm]
    exact lt_of_le_of_ne (hle b2 hmem2) hne
  · rintro ⟨b0, hb0, hb0e⟩ b2 hob2
    have hbb : b = b2 := by
      rw [hob] at hob2
      exact Option.some.inj hob2
    subst hbb
    have htop : parameter_hat b0 = ⊤ := parameter_hat_of_empty b0 hb0e
    have hge : (⊤ : WithTop ℚ) ≤ parameter_hat b := by
      rw [← htop, hbm]
      exact hle b0 hb0
    exact top_le_iff.mp hge

/-- Witness for C1 at a concrete collection: the second arm has no
observations, so the estimate of the arm chosen by `optimal_bandit` is
`inf`. -/
theorem C1_optimal_bandit_max_first_w : parameter_hat ⟨(1:ℚ), []⟩ = ⊤ :=
  (C1_optimal_bandit_max_first ⟨[⟨(1:ℚ), []⟩, ⟨(0:ℚ), []⟩], []⟩
      (List.cons_ne_nil _ _)).2.2
    ⟨⟨(0:ℚ), []⟩, List.mem_cons_of_mem _ (List.mem_cons_self _ _), rfl⟩
    ⟨(1:ℚ), []⟩ (by decide)

theorem appendAt_length (v : ℚ) : ∀ (l : List Bandit) (i : ℕ),
    (appendAt i v l).length = l.length := by
  intro l
  induction l with
  | nil => intro i; simp [appendAt]
  | cons b bs ih =>
    intro i
    cases i with
    | zero => simp [appendAt]
    | succ i => simp [appendAt, ih i]

theorem appendAt_sumLen (v : ℚ) : ∀ (l : List Bandit) (i : ℕ), i < l.length →
    ((appendAt i v l).map fun b => b.results.length).sum
      = ((l.map fun b => b.results.length).sum) + 1 := by
  intro l
  induction l with
  | nil => intro i h; simp at h
  | cons b bs ih =>
    intro i hi
    cases i with
    | zero =>
      simp [appendAt]
      omega
    | succ i =>
      have hrec := ih i (by simpa using hi)
      simp [appendAt]
      omega

theorem randomIndex_lt (c : BanditCollection) (k i : ℕ) (h : randomIndex c k = some i) :
    i < c.bandits.length := by
  unfold randomIndex at h
  by_cases h0 : c.bandits.length = 0
  · simp [h0] at h
  · rw [if_neg h0] at h
    cases h
    exact Nat.mod_lt _ (Nat.pos_of_ne_zero h0)

theorem optimal_index_lt (c : BanditCollection) (i : ℕ) (h : optimal_index c = some i) :
    i < c.bandits.length := by
  unfold optimal_index at h
  cases hm : pyMax c.bandits with
  | none => rw [hm] at h; simp at h
  | some m =>
    rw [hm] at h
    have h2 : findIndex (fun b => decide (parameter_hat b = parameter_hat m))
        c.bandits = some i := h
    obtain ⟨b, hb, _, _⟩ := findIndex_spec _ _ _ h2
    exact (List.get?_eq_some.mp hb).1

theorem first_simulate_one_ok (eps : ℚ) (N : ℕ) (c : BanditCollection) (inp : StepInput)
    (c2 : BanditCollection) (h : first_simulate_one eps N c inp = .ok c2) :
    simulation_num c2 = simulation_num c + 1
    ∧ c2.results.length = c.results.length + 1
    ∧ c2.bandits.length = c.bandits.length := by
  unfold first_simulate_one at h
  cases hch : (if !(exploitation_phase eps N c) then randomIndex c inp.choice
               else optimal_index c) with
  | none => rw [hch] at h; exact absurd h (by simp)
  | some i =>
    rw [hch] at h
    have hlt : i < c.bandits.length := by
      by_cases hex : exploitation_phase eps N c
      · rw [if_neg (by simp [hex])] at hch
        exact optimal_index_lt c i hch
      · rw [if_pos (by simp [hex])] at hch
        exact randomIndex_lt c inp.choice i hch
    simp only [StepOutcome.ok.injEq] at h
    subst h
    refine ⟨?_, ?_, ?_⟩
    · show ((appendAt i inp.draw c.bandits).map fun b => b.results.length).sum
        = simulation_num c + 1
      exact appendAt_sumLen inp.draw c.bandits i hlt
    · simp [pullArm]
    · exact appendAt_length inp.draw c.bandits i

theorem greedy_simulate_one_ne_ok (eps : ℚ) (c : BanditCollection) (inp : StepInput)
    (c2 : BanditCollection) : greedy_simulate_one eps c inp ≠ .ok c2 := by
  unfold greedy_simulate_one
  cases greedy_bandit_strategy eps c inp <;> simp

theorem decreasing_simulate_one_ne_ok (c : BanditCollection) (inp : StepInput)
    (c2 : BanditCollection) : decreasing_simulate_one c inp ≠ .ok c2 := by
  simp [decreasing_simulate_one]

theorem initAll_ok : ∀ (vs : List ℚ) (bs : List Bandit), initAll vs = .ok bs →
    bs = vs.map fun v => ⟨v, []⟩ := by
  intro vs
  induction vs with
  | nil =>
    intro bs h
    cases h
    rfl
  | cons v vs ih =>
    intro bs h
    unfold initAll at h
    cases hb : bernoulli_init v with
    | error e => rw [hb] at h; exact absurd h (by simp)
    | ok b =>
      rw [hb] at h
      cases hr : initAll vs with
      | error e => rw [hr] at h; exact absurd h (by simp)
      | ok bs0 =>
        rw [hr] at h
        cases h
        have hbv : b = ⟨v, []⟩ := by
          unfold bernoulli_init at hb
          by_cases hc : v < 0 ∨ v > 1
          · rw [if_pos hc] at hb; exact absurd hb (by simp)
          · rw [if_neg hc] at hb
            exact (Except.ok.inj hb).symm
        subst hbv
        simp [ih bs0 hr]

theorem initAll_of_valid : ∀ vs : List ℚ, (∀ v ∈ vs, 0 ≤ v ∧ v ≤ 1) →
    initAll vs = .ok (vs.map fun v => ⟨v, []⟩) := by
  intro vs
  induction vs with
  | nil => intro _; rfl
  | cons v vs ih =>
    intro h
    have hv := h v (List.mem_cons_self v vs)
    have hni : ¬ (v < 0 ∨ v > 1) := by
      push_neg
      exact ⟨hv.1, hv.2⟩
    have hinit : bernoulli_init v = .ok ⟨v, []⟩ := by
      unfold bernoulli_init
      rw [if_neg hni]
    have hrec := ih fun w hw => h w (List.mem_cons_of_mem v hw)
    simp [initAll, hinit, hrec]

theorem gaussian_init_all_ok : ∀ (p1 p2 : List ℚ) (gs : List GaussianBandit),
    gaussian_init_all p1 p2 = .ok gs →
    gs.map GaussianBandit.parameter = p1 ∧ gs.length = p1.length := by
  intro p1
  induction p1 with
  | nil =>
    intro p2 gs h
    cases p2 with
    | nil => cases h; simp
    | cons b bs => cases h; simp
  | cons a as ih =>
    intro p2 gs h
    cases p2 with
    | nil => exact absurd h (by simp [gaussian_init_all])
    | cons b bs =>
      unfold gaussian_init_all at h
      cases hg : gaussian_init a b with
      | error e => rw [hg] at h; exact absurd h (by simp)
      | ok g =>
        rw [hg] at h
        cases hr : gaussian_init_all as bs with
        | error e => rw [hr] at h; exact absurd h (by simp)
        | ok gs0 =>
          rw [hr] at h
          cases h
          have hga : g.parameter = a := by
            unfold gaussian_init at hg
            by_cases hc : b < 0
            · rw [if_pos hc] at hg; exact absurd hg (by simp)
            · rw [if_neg hc] at hg
              cases hg
              rfl
          obtain ⟨h1, h2⟩ := ih bs gs0 hr
          exact ⟨by simp [h1, hga], by simp [h2]⟩

theorem runSteps_cons_err (step : BanditCollection → StepInput → StepOutcome)
    (inp : StepInput) (rest : List StepInput) (c c1 : BanditCollection)
    (h : step c inp = .err c1) : runSteps step (inp :: rest) c = .err c1 := by
  simp [runSteps, h]

theorem full_simulation_err_head (step : BanditCollection → StepInput → StepOutcome)
    (N : ℕ) (inp : StepInput) (rest : List StepInput) (c c1 : BanditCollection)
    (hlt : simulation_num c < N) (h : step c inp = .err c1) :
    full_simulation step N (inp :: rest) c = .err c1 := by
  unfold full_simulation
  rw [if_neg (by omega)]
  obtain ⟨k, hk⟩ : ∃ k, N - simulation_num c = k + 1 := ⟨N - simulation_num c - 1, by omega⟩
  rw [hk, List.take_succ_cons]
  exact runSteps_cons_err step inp _ c c1 h

theorem greedy_step_concrete :
    greedy_simulate_one ((1:ℚ)/5) ⟨[⟨(1:ℚ), []⟩], []⟩ ⟨0, 0, 1⟩
      = .err ⟨[⟨(1:ℚ), [1]⟩], []⟩ := by
  have hu : ((0:ℚ) ≤ 1/5) := by norm_num
  simp [greedy_simulate_one, greedy_bandit_strategy, hu, randomIndex, pullArm, appendAt]

/-- C2: the claim expects construction to fail for every epsilon outside
the interval from 0 to 1, but the source guard is the chained comparison
`0 > epsilon < 1`, which Python evaluates as
`0 > epsilon and epsilon < 1`; for `epsilon = 3/2` (outside the
interval) it is false, so no error is raised and construction succeeds,
contradicting the message of the `ValueError` the guard was meant to
raise. -/
theorem C2_epsilon_guard_accepts_large :
    semi_uniform_epsilon_raises ((3:ℚ)/2) = false ∧ (1:ℚ) < (3:ℚ)/2 := by
  have h1 : ¬ ((0:ℚ) > 3/2) := by norm_num
  exact ⟨by simp [semi_uniform_epsilon_raises, h1], by norm_num⟩

/-- C3: the claim expects construction of a Decreasing strategy with
`decay_rate = 0.05` to succeed, but the source guard
`if 0 < self.decay_rate < 1: raise ValueError(...)` raises exactly when
the decay rate is inside the open interval it claims to require, so the
value `1/20` is rejected. -/
theorem C3_decay_guard_rejects_valid :
    decreasing_decay_raises ((1:ℚ)/20) = true
    ∧ (0:ℚ) < (1:ℚ)/20 ∧ (1:ℚ)/20 < 1 := by
  have h1 : (0:ℚ) < 1/20 := by norm_num
  have h2 : (1:ℚ)/20 < 1 := by
    rw [div_lt_one (by norm_num : (0:ℚ) < 20)]
    norm_num
  refine ⟨?_, h1, h2⟩
  simp only [decreasing_decay_raises, Bool.and_eq_true, decide_eq_true_eq]
  exact ⟨h1, h2⟩

/-- C4: the claim expects `full_simulation` with a Greedy strategy and a
budget of 500 to fill the pull history with 500 entries, but the first
`simulate_one` raises `AttributeError` reading `bandit.id` right after
committing the pull, so the run aborts with the pull history still
empty. -/
theorem C4_greedy_full_simulation_aborts :
    full_simulation (greedy_simulate_one ((1:ℚ)/5)) 500
        (⟨0, 0, 1⟩ :: List.replicate 499 ⟨0, 0, 1⟩) ⟨[⟨(1:ℚ), []⟩], []⟩
      = .err ⟨[⟨(1:ℚ), [1]⟩], []⟩ := by
  apply full_simulation_err_head
  · decide
  · exact greedy_step_concrete

/-- C5: the claim expects `simulate(k)` to add exactly `k` entries to the
pull history in every state, but with a Greedy strategy the first step
raises `AttributeError` reading `bandit.id`, so `simulate(10)` aborts
with the pull history still empty. -/
theorem C5_greedy_simulate_aborts :
    simulate (greedy_simulate_one ((1:ℚ)/5)) (List.replicate 10 ⟨0, 0, 1⟩)
        ⟨[⟨(1:ℚ), []⟩], []⟩
      = .err ⟨[⟨(1:ℚ), [1]⟩], []⟩ := by
  have h10 : List.replicate 10 (⟨0, 0, 1⟩ : StepInput)
      = ⟨0, 0, 1⟩ :: List.replicate 9 ⟨0, 0, 1⟩ := rfl
  rw [simulate, h10]
  exact runSteps_cons_err _ _ _ _ _ greedy_step_concrete

/-- C6: the invariant equating the total number of observed results and
the length of the pull history holds for a freshly constructed
collection and is preserved by every successful `simulate_one` of each
strategy variant: a successful step appends exactly one observation to
the pulled arm and one entry to the pull history (the Greedy and
Decreasing variants have no successful step at all, since every call
raises before extending the pull history). -/
theorem C6_pull_history_invariant :
    (∀ (vs : List ℚ) (c : BanditCollection),
        bernoulli_from_parameter_list vs = .ok c → invariant c)
    ∧ (∀ (eps : ℚ) (c : BanditCollection) (inp : StepInput) (c2 : BanditCollection),
        greedy_simulate_one eps c inp = .ok c2 → invariant c → invariant c2)
    ∧ (∀ (c : BanditCollection) (inp : StepInput) (c2 : BanditCollection),
        decreasing_simulate_one c inp = .ok c2 → invariant c → invariant c2)
    ∧ (∀ (eps : ℚ) (N : ℕ) (c : BanditCollection) (inp : StepInput)
        (c2 : BanditCollection),
        first_simulate_one eps N c inp = .ok c2 → invariant c → invariant c2) := by
  refine ⟨?_, ?_, ?_, ?_⟩
  · intro vs c h
    unfold bernoulli_from_parameter_list at h
    cases hr : initAll vs with
    | error e => rw [hr] at h; exact absurd h (by simp)
    | ok bs =>
      rw [hr] at h
      cases h
      have hbs := initAll_ok vs bs hr
      subst hbs
      unfold invariant simulation_num
      simp only [List.length_nil]
      apply List.sum_eq_zero
      intro x hx
      simp only [List.map_map, List.mem_map, Function.comp] at hx
      obtain ⟨v, _, hv⟩ := hx
      simp at hv
      omega
  · intro eps c inp c2 h _
    exact absurd h (greedy_simulate_one_ne_ok eps c inp c2)
  · intro c inp c2 h _
    exact absurd h (decreasing_simulate_one_ne_ok c inp c2)
  · intro eps N c inp c2 h hinv
    obtain ⟨h1, h2, _⟩ := first_simulate_one_ok eps N c inp c2 h
    unfold invariant at hinv ⊢
    omega

/-- Witness for C6: a concrete successful step of the First strategy
starting from a fresh one-arm collection preserves the invariant. -/
theorem C6_pull_history_invariant_w : invariant ⟨[⟨(1:ℚ), [1]⟩], [1]⟩ := by
  have hex : exploitation_phase 0 5 ⟨[⟨(1:ℚ), []⟩], []⟩ = true := by
    simp [exploitation_phase, simulation_num]
  have hstep : first_simulate_one 0 5 ⟨[⟨(1:ℚ), []⟩], []⟩ ⟨0, 0, 1⟩
      = .ok ⟨[⟨(1:ℚ), [1]⟩], [1]⟩ := by
    simp [first_simulate_one, hex, optimal_index, pyMax, pyMaxFrom, findIndex,
      parameter_hat, pullArm, appendAt]
  exact C6_pull_history_invariant.2.2.2 0 5 ⟨[⟨(1:ℚ), []⟩], []⟩ ⟨0, 0, 1⟩
    ⟨[⟨(1:ℚ), [1]⟩], [1]⟩ hstep rfl

theorem runSteps_first_ok_sim_num (eps : ℚ) (N : ℕ) :
    ∀ (inputs : List StepInput) (c0 c : BanditCollection),
      runSteps (first_simulate_one eps N) inputs c0 = .ok c →
      simulation_num c = simulation_num c0 + inputs.length := by
  intro inputs
  induction inputs with
  | nil =>
    intro c0 c h
    cases h
    simp
  | cons inp rest ih =>
    intro c0 c h
    unfold runSteps at h
    cases hstep : first_simulate_one eps N c0 inp with
    | err c1 =>
      rw [hstep] at h
      exact StepOutcome.noConfusion h
    | ok c1 =>
      rw [hstep] at h
      have h1 := (first_simulate_one_ok eps N c0 inp c1 hstep).1
      have h2 := ih c1 c h
      simp only [List.length_cons]
      omega

/-- C7 counterexample: with `epsilon = 1/2` and a budget of 3 pulls, the
phase boundary `epsilon * N` equals `3/2`; after one recorded pull the
second pull has index `2 > 3/2`, yet `exploitation_phase` is still
false, so the strategy draws `randomArm` where the claim promises the
exploitation phase. -/
theorem C7_counterexample_fractional_boundary :
    simulate (first_simulate_one ((1:ℚ)/2) 3) [⟨0, 0, 1⟩] ⟨[⟨(1:ℚ), []⟩], []⟩
        = .ok ⟨[⟨(1:ℚ), [1]⟩], [1]⟩
    ∧ exploitation_phase ((1:ℚ)/2) 3 ⟨[⟨(1:ℚ), [1]⟩], [1]⟩ = false
    ∧ ¬ ((2:ℚ) ≤ (1:ℚ)/2 * (3:ℚ)) := by
  have hex0 : exploitation_phase ((1:ℚ)/2) 3 ⟨[⟨(1:ℚ), []⟩], []⟩ = false := by
    unfold exploitation_phase simulation_num
    rw [decide_eq_false_iff_not]
    simp only [List.map_cons, List.map_nil, List.sum_cons, List.sum_nil]
    norm_num
  have hex1 : exploitation_phase ((1:ℚ)/2) 3 ⟨[⟨(1:ℚ), [1]⟩], [1]⟩ = false := by
    unfold exploitation_phase simulation_num
    rw [decide_eq_false_iff_not]
    simp only [List.map_cons, List.map_nil, List.sum_cons, List.sum_nil]
    norm_num
  refine ⟨?_, hex1, by norm_num⟩
  simp only [simulate, runSteps, first_simulate_one, hex0, Bool.not_false, if_true,
    randomIndex, pullArm, List.length_cons, List.length_nil]
  rfl

/-- C7 amended: a pull of the First strategy is taken in the exploration
phase exactly when the number of previously recorded pulls, i.e. its
1-based index minus one, is strictly below `epsilon * N`; a pull of
index at most `epsilon * N` therefore always explores, but when
`epsilon * N` is fractional the pull of index just above the boundary
still explores. -/
theorem C7_first_phase_boundary (eps : ℚ) (N : ℕ) (c0 c : BanditCollection)
    (inputs : List StepInput) (i : ℕ) (h1 : 1 ≤ i)
    (h0 : simulation_num c0 = 0) (hlen : inputs.length = i - 1)
    (hrun : simulate (first_simulate_one eps N) inputs c0 = .ok c) :
    exploitation_phase eps N c = false ↔ (i : ℚ) - 1 < eps * (N : ℚ) := by
  have hs := runSteps_first_ok_sim_num eps N inputs c0 c hrun
  rw [h0, hlen, zero_add] at hs
  unfold exploitation_phase
  rw [decide_eq_false_iff_not, not_le, hs, Nat.cast_sub h1, Nat.cast_one]

/-- Witness for C7 at a fresh one-arm collection: the first pull is in
the exploration phase exactly because zero recorded pulls lie below the
boundary `4/5 * 100`. -/
theorem C7_first_phase_boundary_w :
    exploitation_phase ((4:ℚ)/5) 100 ⟨[⟨(1:ℚ), []⟩], []⟩ = false
      ↔ (((1:ℕ) : ℚ) - 1 < (4:ℚ)/5 * ((100:ℕ) : ℚ)) :=
  C7_first_phase_boundary ((4:ℚ)/5) 100 ⟨[⟨(1:ℚ), []⟩], []⟩ ⟨[⟨(1:ℚ), []⟩], []⟩
    [] 1 (le_refl 1) rfl rfl rfl

/-- C8: the effective explore probability of the Decreasing strategy is
`exp(epsilon - decay_rate * pulls)` and is strictly decreasing in the
number of executed pulls whenever the decay rate is positive. -/
theorem C8_epsilon_curr_strict_decrease (eps d : ℝ) (m1 m2 : ℕ) (hd : 0 < d)
    (h : m1 < m2) : epsilon_curr eps d m2 < epsilon_curr eps d m1 := by
  unfold epsilon_curr
  rw [Real.exp_lt_exp]
  have hm : (m1 : ℝ) < (m2 : ℝ) := by exact_mod_cast h
  have hmul := mul_lt_mul_of_pos_left hm hd
  linarith

/-- Witness for C8 with decay rate 1: the effective explore probability
after one pull is strictly below the one before it. -/
theorem C8_epsilon_curr_strict_decrease_w :
    epsilon_curr 0 1 1 < epsilon_curr 0 1 0 :=
  C8_epsilon_curr_strict_decrease 0 1 0 1 zero_lt_one Nat.zero_lt_one

/-- C9: building a collection `from_parameter_list` succeeds on valid
parameters and produces exactly one arm per input value, whose true
parameter is the input value at the same position, in order, for both
the one-parameter and the two-parameter constructor. -/
theorem C9_from_parameter_list_round_trip :
    (∀ vs : List ℚ, (∀ v ∈ vs, 0 ≤ v ∧ v ≤ 1) →
        bernoulli_from_parameter_list vs = .ok ⟨vs.map (fun v => ⟨v, []⟩), []⟩)
    ∧ (∀ (vs : List ℚ) (c : BanditCollection),
        bernoulli_from_parameter_list vs = .ok c →
        c.bandits.length = vs.length ∧ c.bandits.map Bandit.parameter = vs)
    ∧ (∀ (p1 p2 : List ℚ) (c : GaussianCollection),
        gaussian_from_parameter_list p1 p2 = .ok c →
        c.bandits.length = p1.length ∧ c.bandits.map GaussianBandit.parameter = p1) := by
  refine ⟨?_, ?_, ?_⟩
  · intro vs h
    unfold bernoulli_from_parameter_list
    rw [initAll_of_valid vs h]
  · intro vs c h
    unfold bernoulli_from_parameter_list at h
    cases hr : initAll vs with
    | error e =>
      rw [hr] at h
      exact Except.noConfusion h
    | ok bs =>
      rw [hr] at h
      cases h
      have hbs := initAll_ok vs bs hr
      subst hbs
      constructor
      · simp
      · simp only [List.map_map]
        have hcomp : (Bandit.parameter ∘ fun v => (⟨v, []⟩ : Bandit)) = id := rfl
        rw [hcomp, List.map_id]
  · intro p1 p2 c h
    unfold gaussian_from_parameter_list at h
    cases hr : gaussian_init_all p1 p2 with
    | error e =>
      rw [hr] at h
      exact Except.noConfusion h
    | ok gs =>
      rw [hr] at h
      cases h
      obtain ⟨h1, h2⟩ := gaussian_init_all_ok p1 p2 gs hr
      exact ⟨h2, h1⟩

/-- Witness for C9 at concrete parameter lists for both constructors. -/
theorem C9_from_parameter_list_round_trip_w :
    bernoulli_from_parameter_list [0, 1] = .ok ⟨[⟨0, []⟩, ⟨1, []⟩], []⟩
    ∧ ([⟨1, 2, []⟩, ⟨0, 3, []⟩] : List GaussianBandit).map GaussianBandit.parameter
        = [1, 0] := by
  have hval : ∀ v ∈ ([0, 1] : List ℚ), 0 ≤ v ∧ v ≤ 1 := by
    intro v hv
    rcases List.mem_cons.mp hv with h | h
    · subst h
      exact ⟨le_refl 0, zero_le_one⟩
    · rcases List.mem_cons.mp h with h | h
      · subst h
        exact ⟨zero_le_one, le_refl 1⟩
      · simp at h
  refine ⟨C9_from_parameter_list_round_trip.1 [0, 1] hval, ?_⟩
  exact (C9_from_parameter_list_round_trip.2.2 [1, 0] [2, 3]
    ⟨[⟨1, 2, []⟩, ⟨0, 3, []⟩], []⟩ rfl).2

/-- C10: a Gaussian arm with no observations reports `inf` for its
primary estimate, but reading its secondary estimate divides by the
number of observations with no emptiness guard, so the read raises
`ZeroDivisionError` instead of returning `inf`. -/
theorem C10_secondary_estimate_division_by_zero (p s : ℚ) :
    gaussian_secondary_parameter_hat ⟨p, s, []⟩ = none
    ∧ gaussian_parameter_hat ⟨p, s, []⟩ = ⊤ :=
  ⟨rfl, rfl⟩

end MAB
